import Mathlib

/-!
Verification of the repository-automation bot's rule-evaluation core.

The development shallowly embeds the JavaScript sources:
  * `src/utils/config.js`   (ConfigManager: YAML extraction/parsing/validation)
  * `src/label-automation.js` (LabelAutomation: release/backport and
    feature-branch labeling)
  * `src/triage-management.js` (RepositoryAutomation: smart PR labeling)
  * `src/utils/github-client.js` (GitHubClient.hasLabels label patterns)
  * `src/stale-detection.js` (StaleDetection: stale threshold)
Pure fragments become Lean functions; the effectful orchestration becomes a
pure function from the repository state it reads (current labels, PR body,
existing comments) to the mutations it issues (labels applied, check-run
conclusion, comment list after the run).
-/

namespace RepoAutomation

/-! ## JavaScript character classes and basic string operations -/

/-- Characters matched by the JavaScript regex class `\s`
(ECMAScript WhiteSpace plus LineTerminator). -/
def isJsSpace (c : Char) : Bool :=
  c = ' ' || c = '\t' || c = '\n' || c = '\r' || c = '\x0b' || c = '\x0c' ||
  c.val = 0xa0 || c.val = 0x1680 || (0x2000 ≤ c.val && c.val ≤ 0x200a) ||
  c.val = 0x2028 || c.val = 0x2029 || c.val = 0x202f || c.val = 0x205f ||
  c.val = 0x3000 || c.val = 0xfeff

/-- ECMAScript LineTerminator characters (the characters the regex `.` does
not match and the multiline `$` anchors before). -/
def isLineTerm (c : Char) : Bool :=
  c = '\n' || c = '\r' || c.val = 0x2028 || c.val = 0x2029

/-- Quote characters recognised by the value parser (`"` or `'`). -/
def isQuoteChar (c : Char) : Bool :=
  c = '"' || c = '\''

/-- JavaScript `String.prototype.trim` on a character list. -/
def jsTrimL (cs : List Char) : List Char :=
  ((cs.dropWhile isJsSpace).reverse.dropWhile isJsSpace).reverse

/-- JavaScript `String.prototype.startsWith`. -/
def jsStartsWith (s pre : String) : Bool :=
  pre.data.isPrefixOf s.data

/-- JavaScript `String.prototype.endsWith`. -/
def jsEndsWith (s suf : String) : Bool :=
  suf.data.isSuffixOf s.data

/-- Substring search on character lists (JavaScript `String.prototype.includes`). -/
def hasSubstr : List Char → List Char → Bool
  | s, pat =>
    if pat.isPrefixOf s then true
    else match s with
      | [] => false
      | _ :: rest => hasSubstr rest pat

/-- JavaScript `s.includes(pat)`. -/
def jsIncludes (s pat : String) : Bool :=
  hasSubstr s.data pat.data

/-! ## YAML block extraction (`ConfigManager.parseYamlFromText`)

The source scans the text with the regex
`/```yaml\s*\n([\s\S]*?)\n\s*```/g` and keeps the first match's capture
group.  We embed the backtracking semantics of that particular pattern:
after the literal marker, the greedy `\s*` backtracks to the last
newline of the whitespace run (trying shorter runs on failure), and the
lazy group ends at the first newline followed by optional whitespace and
a closing triple backtick. -/

/-- Test for `\s*` followed by a literal closing triple backtick. -/
def closesAfter : List Char → Bool
  | [] => false
  | c :: rest =>
    if ['`', '`', '`'].isPrefixOf (c :: rest) then true
    else if isJsSpace c then closesAfter rest
    else false

/-- Lazy capture group: the shortest prefix of the input that is followed by
a newline, optional whitespace, and a closing triple backtick. -/
def lazyContent : List Char → Option (List Char)
  | [] => none
  | c :: rest =>
    if c = '\n' && closesAfter rest then some []
    else (lazyContent rest).map (c :: ·)

/-- Attempt to match the remainder of the pattern just after the literal
yaml fence marker: the greedy `\s*` is tried from the longest whitespace
prefix downwards, each candidate requiring a newline at its end. -/
def tryAfterMarker (cs : List Char) : Option (List Char) :=
  let w := cs.takeWhile isJsSpace
  let rest := cs.drop w.length
  let ks := ((List.range w.length).filter (fun k => w.getD k ' ' = '\n')).reverse
  ks.findSome? (fun k => lazyContent (w.drop (k + 1) ++ rest))

/-- Scan for the leftmost full match of the YAML block regex; on a failed
attempt the scan advances one character, as the regex engine does. -/
def scanYaml : List Char → Option (List Char)
  | [] => none
  | c :: rest =>
    if ['`', '`', '`', 'y', 'a', 'm', 'l'].isPrefixOf (c :: rest) then
      match tryAfterMarker ((c :: rest).drop 7) with
      | some g => some g
      | none => scanYaml rest
    else scanYaml rest

/-- Embedding of `ConfigManager.parseYamlFromText`: return the capture group
of the first fenced YAML block, or none when the text is empty or holds no
block. -/
def parseYamlFromText (text : String) : Option String :=
  if text = "" then none
  else (scanYaml text.data).map (fun g => String.mk g)

/-! ## Field extraction (`ConfigManager.parseYamlValue`)

The source matches the multiline regex built from the field name,
`^<field>:\s*(.+)$` (first match), then trims, strips a trailing
`#` comment, and either delegates to array parsing or strips one layer of
leading/trailing quote characters. -/

/-- Capture group of `\s*(.+)$` anchored at the text following the colon:
the greedy `\s*` backtracks until `.+` can match at least one
non-line-terminator character ending at a line boundary. -/
def groupAfterColon (s : List Char) : Option (List Char) :=
  let w := s.takeWhile isJsSpace
  let rest := s.drop w.length
  if rest ≠ [] then
    some (rest.takeWhile (fun c => !isLineTerm c))
  else
    match ((List.range w.length).filter (fun p => !isLineTerm (w.getD p ' '))).getLast? with
    | some p => some ((w.drop p).takeWhile (fun c => !isLineTerm c))
    | none => none

/-- Scan for the first position at a line start where the literal
`<field>:` matches and the rest of the pattern succeeds; on failure the
scan advances, keeping track of line starts. -/
def scanField : List Char → List Char → Bool → Option (List Char)
  | [], _, _ => none
  | c :: rest, fld, atStart =>
    if atStart && (fld ++ [':']).isPrefixOf (c :: rest) then
      match groupAfterColon ((c :: rest).drop (fld.length + 1)) with
      | some g => some g
      | none => scanField rest fld (c = '\n')
    else scanField rest fld (c = '\n')

/-- Removal of a trailing line comment, embedding
`replace(/#.*$/, '')`: text from the first `#` not followed by any line
terminator is dropped. -/
def stripComment : List Char → List Char
  | [] => []
  | c :: rest =>
    if c = '#' && rest.all (fun d => !isLineTerm d) then []
    else c :: stripComment rest

/-- Removal of a final quote character if present. -/
def dropTrailingQuote (u : List Char) : List Char :=
  match u.getLast? with
  | some d => if isQuoteChar d then u.dropLast else u
  | none => u

/-- Embedding of `replace(/^["']|["']$/g, '')`: one leading quote character
and one trailing quote character are removed independently (a single
quote character is consumed by the leading alternative only). -/
def stripQuotesL (s : List Char) : List Char :=
  match s with
  | [] => []
  | c :: rest =>
    if isQuoteChar c then dropTrailingQuote rest
    else dropTrailingQuote (c :: rest)

/-- Raw field value: the capture group of the field regex, trimmed, with a
trailing comment removed, and trimmed again; empty results are absent.
This factors the shared front of `ConfigManager.parseYamlValue`. -/
def parseRawField (yamlContent field : String) : Option String :=
  if yamlContent = "" then none
  else match scanField yamlContent.data field.data true with
    | none => none
    | some g =>
      let rawValue := jsTrimL (stripComment (jsTrimL g))
      if rawValue = [] then none else some (String.mk rawValue)

/-! ## JSON values (`JSON.parse` / `String(...)` as used by
`ConfigManager.parseYamlArrayValue`)

Numbers are kept as their decimal components; `String(number)` is realised
by the ECMAScript decimal-to-string algorithm on the exact decimal value,
which agrees with the engine whenever the literal is the shortest
representation of its double (the case for the version-like values this
program handles). -/

inductive Json where
  | jnull : Json
  | jbool (b : Bool) : Json
  | jnum (neg : Bool) (intDigits fracDigits : List Char) (expNeg : Bool) (expDigits : List Char) : Json
  | jstr (s : List Char) : Json
  | jarr (xs : List Json) : Json
  | jobj (fields : List (List Char × Json)) : Json
deriving Repr

/-- Numeric value of a decimal digit list. -/
def digitsVal (ds : List Char) : Nat :=
  ds.foldl (fun acc c => 10 * acc + (c.val.toNat - 48)) 0

/-- ECMAScript `Number::toString` (radix 10) on an exact decimal value. -/
def numToString (neg : Bool) (intDigits fracDigits : List Char) (expNeg : Bool) (expDigits : List Char) : List Char :=
  let allDigits := intDigits ++ fracDigits
  if digitsVal allDigits = 0 then ['0']
  else
    let e : Int := (if expNeg then -(digitsVal expDigits : Int) else (digitsVal expDigits : Int)) - fracDigits.length
    let ld := allDigits.dropWhile (fun c => c = '0')
    let core := (ld.reverse.dropWhile (fun c => c = '0')).reverse
    let tz : Int := ld.length - core.length
    let k : Int := core.length
    let n : Int := k + e + tz
    let body :=
      if k ≤ n && n ≤ 21 then
        core ++ List.replicate (n - k).toNat '0'
      else if 0 < n && n ≤ 21 then
        core.take n.toNat ++ '.' :: core.drop n.toNat
      else if -6 < n && n ≤ 0 then
        '0' :: '.' :: List.replicate (-n).toNat '0' ++ core
      else
        let mantissa := match core with
          | [] => []
          | d :: [] => [d]
          | d :: rest => d :: '.' :: rest
        let expPart := if n - 1 ≥ 0 then '+' :: (n - 1).toNat.repr.data
          else '-' :: (1 - n).toNat.repr.data
        mantissa ++ 'e' :: expPart
    if neg then '-' :: body else body

mutual

/-- JavaScript `String(value)` for parsed JSON values (arrays join their
elements with commas, null elements joining as empty). -/
def jsToStr : Json → List Char
  | .jnull => "null".data
  | .jbool true => "true".data
  | .jbool false => "false".data
  | .jnum neg i f en ed => numToString neg i f en ed
  | .jstr s => s
  | .jarr xs => joinElems xs
  | .jobj _ => "[object Object]".data

/-- JavaScript `Array.prototype.join(',')` over stringified elements. -/
def joinElems : List Json → List Char
  | [] => []
  | [Json.jnull] => []
  | [x] => jsToStr x
  | Json.jnull :: y :: rest => ',' :: joinElems (y :: rest)
  | x :: y :: rest => jsToStr x ++ ',' :: joinElems (y :: rest)

end

/-! ### JSON parsing -/

/-- JSON insignificant whitespace. -/
def skipJsonWs (cs : List Char) : List Char :=
  cs.dropWhile (fun c => c = ' ' || c = '\t' || c = '\n' || c = '\r')

/-- Value of a hexadecimal digit, on code points directly. -/
def hexVal (c : Char) : Option Nat :=
  let n := c.val.toNat
  if 48 ≤ n && n ≤ 57 then some (n - 48)
  else if 97 ≤ n && n ≤ 102 then some (n - 87)
  else if 65 ≤ n && n ≤ 70 then some (n - 55)
  else none

/-- Decimal digit test on code points. -/
def isDigitChar (c : Char) : Bool :=
  48 ≤ c.val.toNat && c.val.toNat ≤ 57

/-- JSON string body parsing (after the opening quote), with the escape
sequences of the JSON grammar; surrogate pairs combine into one character. -/
def parseJsonStrAux : Nat → List Char → Option (List Char × List Char)
  | 0, _ => none
  | _ + 1, [] => none
  | fuel + 1, c :: rest =>
    if c = '"' then some ([], rest)
    else if c = '\\' then
      match rest with
      | [] => none
      | e :: rest2 =>
        if e = '"' || e = '\\' || e = '/' then
          (parseJsonStrAux fuel rest2).map (fun (s, r) => (e :: s, r))
        else if e = 'b' then (parseJsonStrAux fuel rest2).map (fun (s, r) => ('\x08' :: s, r))
        else if e = 'f' then (parseJsonStrAux fuel rest2).map (fun (s, r) => ('\x0c' :: s, r))
        else if e = 'n' then (parseJsonStrAux fuel rest2).map (fun (s, r) => ('\n' :: s, r))
        else if e = 'r' then (parseJsonStrAux fuel rest2).map (fun (s, r) => ('\r' :: s, r))
        else if e = 't' then (parseJsonStrAux fuel rest2).map (fun (s, r) => ('\t' :: s, r))
        else if e = 'u' then
          match rest2 with
          | h1 :: h2 :: h3 :: h4 :: rest3 =>
            match hexVal h1, hexVal h2, hexVal h3, hexVal h4 with
            | some a, some b, some cc, some d =>
              let u := a * 4096 + b * 256 + cc * 16 + d
              match rest3 with
              | '\\' :: 'u' :: g1 :: g2 :: g3 :: g4 :: rest4 =>
                match hexVal g1, hexVal g2, hexVal g3, hexVal g4 with
                | some a2, some b2, some c2, some d2 =>
                  let u2 := a2 * 4096 + b2 * 256 + c2 * 16 + d2
                  if 0xd800 ≤ u && u ≤ 0xdbff && 0xdc00 ≤ u2 && u2 ≤ 0xdfff then
                    (parseJsonStrAux fuel rest4).map
                      (fun (s, r) => (Char.ofNat (0x10000 + (u - 0xd800) * 0x400 + (u2 - 0xdc00)) :: s, r))
                  else
                    (parseJsonStrAux fuel rest3).map (fun (s, r) => (Char.ofNat u :: s, r))
                | _, _, _, _ =>
                  (parseJsonStrAux fuel rest3).map (fun (s, r) => (Char.ofNat u :: s, r))
              | _ =>
                (parseJsonStrAux fuel rest3).map (fun (s, r) => (Char.ofNat u :: s, r))
            | _, _, _, _ => none
          | _ => none
        else none
    else if c.val < 0x20 then none
    else (parseJsonStrAux fuel rest).map (fun (s, r) => (c :: s, r))

/-- JSON string parsing from the opening quote. -/
def parseJsonStr (cs : List Char) : Option (List Char × List Char) :=
  match cs with
  | '"' :: rest => parseJsonStrAux (rest.length + 1) rest
  | _ => none

/-- JSON number parsing per the strict JSON grammar
(`-? (0 | [1-9][0-9]*) ('.' [0-9]+)? ([eE][+-]?[0-9]+)?`). -/
def parseJsonNum (cs : List Char) : Option (Json × List Char) :=
  let (neg, cs1) := match cs with
    | '-' :: r => (true, r)
    | _ => (false, cs)
  let intRes : Option (List Char × List Char) := match cs1 with
    | '0' :: r => some (['0'], r)
    | c :: r => if isDigitChar c && c ≠ '0'
        then some (c :: r.takeWhile isDigitChar, r.dropWhile isDigitChar)
        else none
    | [] => none
  match intRes with
  | none => none
  | some (intD, cs2) =>
    let fracRes : Option (List Char × List Char) := match cs2 with
      | '.' :: r =>
        let ds := r.takeWhile isDigitChar
        if ds = [] then none else some (ds, r.dropWhile isDigitChar)
      | _ => some ([], cs2)
    match fracRes with
    | none => none
    | some (fracD, cs3) =>
      match cs3 with
      | c :: r =>
        if c = 'e' || c = 'E' then
          let (expNeg, r2) := match r with
            | '+' :: rr => (false, rr)
            | '-' :: rr => (true, rr)
            | _ => (false, r)
          let ds := r2.takeWhile isDigitChar
          if ds = [] then none
          else some (.jnum neg intD fracD expNeg ds, r2.dropWhile isDigitChar)
        else some (.jnum neg intD fracD false [], cs3)
      | [] => some (.jnum neg intD fracD false [], cs3)

mutual

/-- JSON value parsing (fuel-indexed recursive descent). -/
def parseJsonVal : Nat → List Char → Option (Json × List Char)
  | 0, _ => none
  | fuel + 1, cs =>
    let cs := skipJsonWs cs
    match cs with
    | [] => none
    | c :: rest =>
      if c = 'n' then
        if ['u', 'l', 'l'].isPrefixOf rest then some (.jnull, rest.drop 3) else none
      else if c = 't' then
        if ['r', 'u', 'e'].isPrefixOf rest then some (.jbool true, rest.drop 3) else none
      else if c = 'f' then
        if ['a', 'l', 's', 'e'].isPrefixOf rest then some (.jbool false, rest.drop 4) else none
      else if c = '"' then
        (parseJsonStr (c :: rest)).map (fun (s, r) => (.jstr s, r))
      else if c = '[' then
        let cs1 := skipJsonWs rest
        match cs1 with
        | ']' :: r => some (.jarr [], r)
        | _ => parseJsonItems fuel cs1 []
      else if c = '{' then
        let cs1 := skipJsonWs rest
        match cs1 with
        | '}' :: r => some (.jobj [], r)
        | _ => parseJsonMembers fuel cs1 []
      else if c = '-' || isDigitChar c then parseJsonNum (c :: rest)
      else none

/-- Comma-separated JSON array elements up to the closing bracket. -/
def parseJsonItems : Nat → List Char → List Json → Option (Json × List Char)
  | 0, _, _ => none
  | fuel + 1, cs, acc =>
    match parseJsonVal fuel cs with
    | none => none
    | some (v, r) =>
      match skipJsonWs r with
      | ',' :: r2 => parseJsonItems fuel r2 (acc ++ [v])
      | ']' :: r2 => some (.jarr (acc ++ [v]), r2)
      | _ => none

/-- Comma-separated JSON object members up to the closing brace. -/
def parseJsonMembers : Nat → List Char → List (List Char × Json) → Option (Json × List Char)
  | 0, _, _ => none
  | fuel + 1, cs, acc =>
    match parseJsonStr (skipJsonWs cs) with
    | none => none
    | some (key, r) =>
      match skipJsonWs r with
      | ':' :: r2 =>
        match parseJsonVal fuel r2 with
        | none => none
        | some (v, r3) =>
          match skipJsonWs r3 with
          | ',' :: r4 => parseJsonMembers fuel r4 (acc ++ [(key, v)])
          | '}' :: r4 => some (.jobj (acc ++ [(key, v)]), r4)
          | _ => none
      | _ => none

end

/-- JavaScript `JSON.parse`: a single value with optional surrounding
whitespace. -/
def runJsonParse (cs : List Char) : Option Json :=
  match parseJsonVal (4 * (cs.length + 1)) cs with
  | some (v, r) => if skipJsonWs r = [] then some v else none
  | none => none

/-! ## Array field parsing (`ConfigManager.parseYamlArrayValue`) -/

/-- Single-quote normalization, embedding
`replace(/'([^']*)'/g, '"$1"')`: each single-quoted run (pairing quotes
left to right) becomes double-quoted; an unmatched quote is kept. -/
def normQuotesAux : Nat → List Char → List Char
  | 0, s => s
  | _ + 1, [] => []
  | fuel + 1, c :: rest =>
    if c = '\'' && rest.contains '\'' then
      '"' :: rest.takeWhile (· ≠ '\'') ++ '"' :: normQuotesAux fuel ((rest.dropWhile (· ≠ '\'')).drop 1)
    else c :: normQuotesAux fuel rest

/-- Quote normalization entry point. -/
def normalizeQuotes (cs : List Char) : List Char :=
  normQuotesAux cs.length cs

/-- Embedding of `ConfigManager.parseYamlArrayValue`: normalize quotes,
parse as JSON, and on an array stringify/trim each element and drop empty
strings; any failure or non-array result is `none`. -/
def parseYamlArrayValue (arrayString : String) : Option (List String) :=
  match runJsonParse (normalizeQuotes arrayString.data) with
  | some (Json.jarr xs) =>
      some (((xs.map (fun item => jsTrimL (jsToStr item))).filter
        (fun t => t.length > 0)).map (fun t => String.mk t))
  | some _ => none
  | none => none

/-! ## Parsed field values (`ConfigManager.parseYamlValue`) -/

/-- Result of `ConfigManager.parseYamlValue` when non-null: a scalar
string or an array of strings (the JavaScript function returns a string,
an array, or null). -/
inductive YamlValue where
  | str (s : String) : YamlValue
  | arr (vs : List String) : YamlValue
deriving DecidableEq, Repr

/-- Embedding of `ConfigManager.parseYamlValue`: raw field extraction,
array delegation on bracket syntax, and otherwise one layer of quote
stripping with empty results reported as absent. -/
def parseYamlValue (yamlContent field : String) : Option YamlValue :=
  match parseRawField yamlContent field with
  | none => none
  | some raw =>
    if jsStartsWith raw "[" && jsEndsWith raw "]" then
      match parseYamlArrayValue raw with
      | some vs => some (.arr vs)
      | none => none
    else
      let v := String.mk (stripQuotesL raw.data)
      if v = "" then none else some (.str v)

/-- JavaScript truthiness of a parse result (`null` and the empty string
are falsy; arrays, including the empty array, are truthy). -/
def jsTruthyOpt : Option YamlValue → Bool
  | none => false
  | some (.str s) => s ≠ ""
  | some (.arr _) => true

/-! ## Validation helpers (`ConfigManager.validateReleaseValue`,
`validateBackportValue`, `getInvalidValues`, `getValidValues`)

The array branch of the validators maps each element to a pair of the
value and its membership in the accepted list; the extractors filter that
result.  (The scalar branch of the validators returns a plain boolean and
is handled inline by the label rules, as in the source.) -/

/-- Array branch of `validateReleaseValue` / `validateBackportValue`. -/
def validateArrayValue (accepted : List String) (vs : List String) : List (String × Bool) :=
  vs.map (fun v => (v, accepted.contains v))

/-- Embedding of `ConfigManager.getInvalidValues` on an array validation
result. -/
def getInvalidValues (validationResult : List (String × Bool)) : List String :=
  (validationResult.filter (fun item => !item.2)).map (fun item => item.1)

/-- Embedding of `ConfigManager.getValidValues` on an array validation
result. -/
def getValidValues (validationResult : List (String × Bool)) : List String :=
  (validationResult.filter (fun item => item.2)).map (fun item => item.1)

/-! ## Release/backport label rules
(`LabelAutomation.processReleaseLabel` / `processBackportLabel`) -/

/-- Result of one category's label rule: labels to propose and an optional
validation error message. -/
structure LabelResult where
  labels : List String
  error : Option String
deriving DecidableEq, Repr

/-- Quote a value for an error message, as the source's
template `"${v}"` does. -/
def quoteVal (v : String) : String :=
  "\"" ++ v ++ "\""

/-- Embedding of `LabelAutomation.processReleaseLabel`. -/
def processReleaseLabel (acceptedReleases : List String) (yamlContent : String) (hasExistingLabel : Bool) : LabelResult :=
  match parseYamlValue yamlContent "release" with
  | none => { labels := [], error := none }
  | some releaseValue =>
    if hasExistingLabel then { labels := [], error := none }
    else
      match releaseValue with
      | .arr vs =>
        let validationResult := validateArrayValue acceptedReleases vs
        let invalidValues := getInvalidValues validationResult
        let validValues := getValidValues validationResult
        if invalidValues.length > 0 then
          { labels := [],
            error := some ("❌ Invalid release values: " ++
              String.intercalate ", " (invalidValues.map quoteVal) ++
              ". Accepted values: " ++ String.intercalate ", " acceptedReleases) }
        else if validValues.length > 0 then
          { labels := validValues.map (fun v => "release-" ++ v), error := none }
        else { labels := [], error := none }
      | .str s =>
        if acceptedReleases.contains s then
          { labels := ["release-" ++ s], error := none }
        else
          { labels := [],
            error := some ("❌ Invalid release value: " ++ quoteVal s ++
              ". Accepted values: " ++ String.intercalate ", " acceptedReleases) }

/-- Embedding of `LabelAutomation.processBackportLabel`. -/
def processBackportLabel (acceptedBackports : List String) (yamlContent : String) (hasExistingLabel : Bool) : LabelResult :=
  match parseYamlValue yamlContent "backport" with
  | none => { labels := [], error := none }
  | some backportValue =>
    if hasExistingLabel then { labels := [], error := none }
    else
      match backportValue with
      | .arr vs =>
        let validationResult := validateArrayValue acceptedBackports vs
        let invalidValues := getInvalidValues validationResult
        let validValues := getValidValues validationResult
        if invalidValues.length > 0 then
          { labels := [],
            error := some ("❌ Invalid backport values: " ++
              String.intercalate ", " (invalidValues.map quoteVal) ++
              ". Accepted values: " ++ String.intercalate ", " acceptedBackports) }
        else if validValues.length > 0 then
          { labels := validValues.map (fun v => "backport-" ++ v), error := none }
        else { labels := [], error := none }
      | .str s =>
        if acceptedBackports.contains s then
          { labels := ["backport-" ++ s], error := none }
        else
          { labels := [],
            error := some ("❌ Invalid backport value: " ++ quoteVal s ++
              ". Accepted values: " ++ String.intercalate ", " acceptedBackports) }

/-! ## Combined release/backport run
(`LabelAutomation.processReleaseBackportLabeling` together with
`handleValidationErrors` and `GitHubClient.cleanupWorkflowComments`) -/

/-- Marker heading contained in every release/backport validation-error
comment, used to find previous comments to delete. -/
def releaseBackportMarker : String :=
  "🚨 YAML Validation Error: release and backport"

/-- Embedding of `GitHubClient.cleanupWorkflowComments`: delete every
comment whose body contains the identifier. -/
def cleanupWorkflowComments (comments : List String) (identifier : String) : List String :=
  comments.filter (fun c => !jsIncludes c identifier)

/-- Body of the combined validation-error comment built by
`LabelAutomation.handleValidationErrors`. -/
def combinedErrorComment (errors acceptedReleases acceptedBackports : List String) : String :=
  "## 🚨 YAML Validation Error: release and backport\n\n" ++
  String.intercalate "\n" (errors.map (fun e => "- " ++ e)) ++ "\n\n" ++
  "### How to fix:\n" ++
  "1. Update your PR description YAML block with valid values\n" ++
  "2. The workflow will automatically re-run when you edit the description\n\n" ++
  "### Valid YAML format:\n" ++
  "```yaml\n" ++
  "release: 1.5    # Valid releases: " ++ String.intercalate ", " acceptedReleases ++ "\n" ++
  "backport: 1.4   # Valid backports: " ++ String.intercalate ", " acceptedBackports ++ "\n" ++
  "```\n\n" ++
  "_This comment was posted by the repository automation workflow._"

/-- Observable outcome of one release/backport labeling run: the errors
collected, the labels passed to `addLabels` (none on the error path), the
conclusion written to the check run, the comment list after the run, and
whether an error comment was created. -/
structure RunOutcome where
  validationErrors : List String
  appliedLabels : List String
  checkConclusion : String
  commentsAfter : List String
  errorCommentPosted : Bool
deriving DecidableEq, Repr

/-- Embedding of `LabelAutomation.processReleaseBackportLabeling` as a
function of the state it reads (feature toggles, accepted lists, current
labels, YAML content, existing comments).  On validation errors the run
completes the check run with failure and posts the combined error comment
without adding any label; otherwise it deletes previous error comments,
adds all proposed labels, and completes the check run with success. -/
def processReleaseBackportLabeling (releaseLabeling backportLabeling : Bool)
    (acceptedReleases acceptedBackports : List String)
    (currentLabels : List String) (yamlContent : String)
    (comments : List String) : RunOutcome :=
  let hasExistingReleaseLabel := currentLabels.any (fun l => jsStartsWith l "release-")
  let hasExistingBackportLabel := currentLabels.any (fun l => jsStartsWith l "backport-")
  let releaseResult := if releaseLabeling
    then processReleaseLabel acceptedReleases yamlContent hasExistingReleaseLabel
    else { labels := [], error := none }
  let backportResult := if backportLabeling
    then processBackportLabel acceptedBackports yamlContent hasExistingBackportLabel
    else { labels := [], error := none }
  let validationErrors := releaseResult.error.toList ++ backportResult.error.toList
  let labelsToAdd :=
    (if releaseResult.error.isSome then [] else releaseResult.labels) ++
    (if backportResult.error.isSome then [] else backportResult.labels)
  if validationErrors.length > 0 then
    { validationErrors := validationErrors,
      appliedLabels := [],
      checkConclusion := "failure",
      commentsAfter := comments ++
        [combinedErrorComment validationErrors acceptedReleases acceptedBackports],
      errorCommentPosted := true }
  else
    { validationErrors := validationErrors,
      appliedLabels := labelsToAdd,
      checkConclusion := "success",
      commentsAfter := cleanupWorkflowComments comments releaseBackportMarker,
      errorCommentPosted := false }

/-! ## Feature-branch rule (`LabelAutomation.processFeatureBranchLabeling`) -/

/-- Outcome of the feature-branch rule for a PR: the label already
existed, no field was found, the label was added, no label was needed, a
validation error comment was posted, or the run raised a type error (the
source calls `toLowerCase` on the parse result, which throws when the
field parsed as an array). -/
inductive FeatureBranchOutcome where
  | skippedExisting : FeatureBranchOutcome
  | noField : FeatureBranchOutcome
  | addedLabel : FeatureBranchOutcome
  | noLabelNeeded : FeatureBranchOutcome
  | invalidValue (msg : String) : FeatureBranchOutcome
  | typeError : FeatureBranchOutcome
deriving DecidableEq, Repr

/-- JavaScript `String.prototype.toLowerCase` on the ASCII range the
boolean field uses. -/
def jsToLowerCase (s : String) : String :=
  String.mk (s.data.map Char.toLower)

/-- Embedding of `LabelAutomation.processFeatureBranchLabeling` as a
function of the existing-label flag and the YAML content. -/
def processFeatureBranchLabeling (hasFeatureBranchLabel : Bool) (yamlContent : String) : FeatureBranchOutcome :=
  if hasFeatureBranchLabel then .skippedExisting
  else
    match parseYamlValue yamlContent "needs_feature_branch" with
    | none => .noField
    | some featureBranchValue =>
      if !jsTruthyOpt (some featureBranchValue) then .noField
      else
        match featureBranchValue with
        | .arr _ => .typeError
        | .str s =>
          let lowerValue := jsToLowerCase s
          if lowerValue = "true" then .addedLabel
          else if lowerValue = "false" || lowerValue = "" then .noLabelNeeded
          else .invalidValue ("❌ Invalid needs_feature_branch value: " ++ quoteVal s ++
            ". Accepted values: true, false (case-insensitive, with optional quotes)")

/-! ## Smart PR labeling
(`RepositoryAutomation.handlePullRequestEvent` with
`GitHubClient.hasLabels`) -/

/-- Embedding of one pattern check of `GitHubClient.hasLabels`: a pattern
ending in `*` prefix-matches against the pattern minus the star, any
other pattern matches exactly. -/
def labelPatternMatches (currentLabels : List String) (pattern : String) : Bool :=
  if jsEndsWith pattern "*" then
    currentLabels.any (fun l => jsStartsWith l (String.mk pattern.data.dropLast))
  else currentLabels.contains pattern

/-- Truthiness of the secondary YAML signal used by the smart-labeling
rule (`yamlContent && parseYamlValue(yamlContent, field)`). -/
def hasYamlField (body field : String) : Bool :=
  match parseYamlFromText body with
  | none => false
  | some y => jsTruthyOpt (parseYamlValue y field)

/-- Embedding of `RepositoryAutomation.handlePullRequestEvent`: the list
of labels the run adds to the PR (drafts are skipped; `ready for review`
is ensured when a release label or release YAML is present; otherwise
`triage` is ensured unless a backport label or backport YAML is present). -/
def handlePullRequestEvent (draft : Bool) (body : String) (currentLabels : List String) : List String :=
  if draft then []
  else
    let hasReleaseLabel := labelPatternMatches currentLabels "release *"
    let hasBackportLabel := labelPatternMatches currentLabels "backport *"
    let hasTriageLabel := labelPatternMatches currentLabels "triage"
    let hasReadyForReviewLabel := labelPatternMatches currentLabels "ready for review"
    let hasReleaseYaml := hasYamlField body "release"
    let hasBackportYaml := hasYamlField body "backport"
    if (hasReleaseLabel || hasReleaseYaml) && !draft then
      if !hasReadyForReviewLabel then ["ready for review"] else []
    else if !hasBackportLabel && !hasBackportYaml then
      if !hasTriageLabel then ["triage"] else []
    else []

/-! ## Stale detection (`StaleDetection.processPR`) -/

/-- Stale threshold in milliseconds
(`staleDays * 24 * 60 * 60 * 1000` from the constructor). -/
def staleThresholdMs (staleDays : Nat) : Nat :=
  staleDays * 24 * 60 * 60 * 1000

/-- Embedding of `StaleDetection.processPR` for a single PR: whether the
stale label is added, given the draft flag, the current label names, the
current time and the computed last-activity time (both in milliseconds). -/
def processPR (staleDays : Nat) (draft : Bool) (labelNames : List String) (now lastActivity : Int) : Bool :=
  if draft then false
  else if labelNames.contains "stale" then false
  else decide (now - lastActivity > (staleThresholdMs staleDays : Int))

/-! ## Case analysis of the combined run -/

/-- A release/backport run either succeeds (no errors: comments cleaned,
labels applied, success check run) or fails (errors: no labels, failure
check run, combined comment appended). -/
lemma processReleaseBackportLabeling_spec (rl bl : Bool)
    (ar ab cl : List String) (y : String) (c : List String) :
    ((processReleaseBackportLabeling rl bl ar ab cl y c).validationErrors = [] ∧
      (processReleaseBackportLabeling rl bl ar ab cl y c).checkConclusion = "success" ∧
      (processReleaseBackportLabeling rl bl ar ab cl y c).errorCommentPosted = false ∧
      (processReleaseBackportLabeling rl bl ar ab cl y c).commentsAfter =
        cleanupWorkflowComments c releaseBackportMarker) ∨
    ((processReleaseBackportLabeling rl bl ar ab cl y c).validationErrors ≠ [] ∧
      (processReleaseBackportLabeling rl bl ar ab cl y c).appliedLabels = [] ∧
      (processReleaseBackportLabeling rl bl ar ab cl y c).checkConclusion = "failure" ∧
      (processReleaseBackportLabeling rl bl ar ab cl y c).errorCommentPosted = true ∧
      (processReleaseBackportLabeling rl bl ar ab cl y c).commentsAfter =
        c ++ [combinedErrorComment
          (processReleaseBackportLabeling rl bl ar ab cl y c).validationErrors ar ab]) := by
  simp only [processReleaseBackportLabeling]
  split_ifs <;>
    first
      | exact Or.inr ⟨List.length_pos.mp (by assumption), rfl, rfl, rfl, rfl⟩
      | exact Or.inl ⟨List.eq_nil_of_length_eq_zero
          (Nat.eq_zero_of_not_pos (by assumption)), rfl, rfl, rfl⟩

/-- Everything but the comment state is independent of the comment state:
the run reads labels and YAML only. -/
lemma processReleaseBackportLabeling_comment_indep (rl bl : Bool)
    (ar ab cl : List String) (y : String) (c1 c2 : List String) :
    (processReleaseBackportLabeling rl bl ar ab cl y c1).validationErrors =
      (processReleaseBackportLabeling rl bl ar ab cl y c2).validationErrors ∧
    (processReleaseBackportLabeling rl bl ar ab cl y c1).appliedLabels =
      (processReleaseBackportLabeling rl bl ar ab cl y c2).appliedLabels := by
  simp only [processReleaseBackportLabeling]
  split_ifs <;> simp_all

/-! ## Claim C1 -/

/-- C1: for every run of the release/backport rule in which the combined
validation-error list is non-empty, no labels from either category are
added in that run (even from a category whose own field validated), the
check run is completed with conclusion failure, and the combined error
comment is posted. -/
theorem c1_fail_closed_on_any_validation_error
    (releaseLabeling backportLabeling : Bool)
    (acceptedReleases acceptedBackports currentLabels : List String)
    (yamlContent : String) (comments : List String) (o : RunOutcome)
    (ho : o = processReleaseBackportLabeling releaseLabeling backportLabeling
      acceptedReleases acceptedBackports currentLabels yamlContent comments)
    (h : o.validationErrors ≠ []) :
    o.appliedLabels = [] ∧ o.checkConclusion = "failure" ∧
    o.errorCommentPosted = true ∧
    o.commentsAfter = comments ++
      [combinedErrorComment o.validationErrors acceptedReleases acceptedBackports] := by
  subst ho
  rcases processReleaseBackportLabeling_spec releaseLabeling backportLabeling
      acceptedReleases acceptedBackports currentLabels yamlContent comments with
    ⟨hnil, _, _, _⟩ | ⟨_, happ, hconc, hpost, hcomm⟩
  · exact absurd hnil h
  · exact ⟨happ, hconc, hpost, hcomm⟩

/-- C1 witness: with only release 1.6 accepted, the YAML
`release: 1.5` / `backport: 1.4` produces a release error, so even the
valid backport label is withheld, the check run fails and the combined
comment is posted. -/
theorem c1_witness :
    (processReleaseBackportLabeling true true ["1.6"] ["1.4"] []
      "release: 1.5\nbackport: 1.4" []).validationErrors ≠ [] ∧
    (processReleaseBackportLabeling true true ["1.6"] ["1.4"] []
      "release: 1.5\nbackport: 1.4" []).appliedLabels = [] ∧
    (processReleaseBackportLabeling true true ["1.6"] ["1.4"] []
      "release: 1.5\nbackport: 1.4" []).checkConclusion = "failure" := by
  have h : (processReleaseBackportLabeling true true ["1.6"] ["1.4"] []
      "release: 1.5\nbackport: 1.4" []).validationErrors ≠ [] := by decide
  refine ⟨h, ?_, ?_⟩
  · exact (c1_fail_closed_on_any_validation_error true true ["1.6"] ["1.4"] []
      "release: 1.5\nbackport: 1.4" [] _ rfl h).1
  · exact (c1_fail_closed_on_any_validation_error true true ["1.6"] ["1.4"] []
      "release: 1.5\nbackport: 1.4" [] _ rfl h).2.1

/-! ## Claim C3 -/

/-- Release rule with a pre-existing same-prefix label: no label, no
error, whatever the YAML value or accepted list. -/
lemma processReleaseLabel_existing (accepted : List String) (yamlContent : String) :
    processReleaseLabel accepted yamlContent true = { labels := [], error := none } := by
  unfold processReleaseLabel
  cases parseYamlValue yamlContent "release" <;> simp

/-- Backport rule with a pre-existing same-prefix label: no label, no
error, whatever the YAML value or accepted list. -/
lemma processBackportLabel_existing (accepted : List String) (yamlContent : String) :
    processBackportLabel accepted yamlContent true = { labels := [], error := none } := by
  unfold processBackportLabel
  cases parseYamlValue yamlContent "backport" <;> simp

/-- C3: a PR already carrying a label with the category's prefix makes
the release (resp. backport) rule propose no new label and produce no
error, regardless of the YAML field's value and of the allowlist. -/
theorem c3_manual_label_precedence
    (currentLabels acceptedReleases acceptedBackports : List String) (yamlContent : String) :
    (currentLabels.any (fun l => jsStartsWith l "release-") = true →
      processReleaseLabel acceptedReleases yamlContent
        (currentLabels.any (fun l => jsStartsWith l "release-")) =
        { labels := [], error := none }) ∧
    (currentLabels.any (fun l => jsStartsWith l "backport-") = true →
      processBackportLabel acceptedBackports yamlContent
        (currentLabels.any (fun l => jsStartsWith l "backport-")) =
        { labels := [], error := none }) := by
  constructor
  · intro h; rw [h]; exact processReleaseLabel_existing _ _
  · intro h; rw [h]; exact processBackportLabel_existing _ _

/-- C3 witness: with labels `release-2.0` and `backport-1.0` present,
YAML `release: 1.5` / `backport: 1.5` and empty allowlists produce no
label and no error for either category. -/
theorem c3_witness :
    (["release-2.0", "backport-1.0"].any (fun l => jsStartsWith l "release-") = true ∧
      processReleaseLabel [] "release: 1.5"
        (["release-2.0", "backport-1.0"].any (fun l => jsStartsWith l "release-")) =
        { labels := [], error := none }) ∧
    (["release-2.0", "backport-1.0"].any (fun l => jsStartsWith l "backport-") = true ∧
      processBackportLabel [] "backport: 1.5"
        (["release-2.0", "backport-1.0"].any (fun l => jsStartsWith l "backport-")) =
        { labels := [], error := none }) :=
  ⟨⟨by decide,
      (c3_manual_label_precedence ["release-2.0", "backport-1.0"] [] [] "release: 1.5").1
        (by decide)⟩,
    ⟨by decide,
      (c3_manual_label_precedence ["release-2.0", "backport-1.0"] [] [] "backport: 1.5").2
        (by decide)⟩⟩

/-! ## Claim C2 -/

/-- Invalid values extracted from an array validation result are the
input elements outside the accepted list, in input order. -/
lemma getInvalidValues_validateArrayValue (accepted vs : List String) :
    getInvalidValues (validateArrayValue accepted vs) =
      vs.filter (fun v => !accepted.contains v) := by
  induction vs with
  | nil => rfl
  | cons v vs ih =>
    by_cases hv : accepted.contains v <;>
      simp_all [validateArrayValue, getInvalidValues, List.filter_cons, hv]

/-- Valid values extracted from an array validation result are the input
elements inside the accepted list, in input order. -/
lemma getValidValues_validateArrayValue (accepted vs : List String) :
    getValidValues (validateArrayValue accepted vs) =
      vs.filter (fun v => accepted.contains v) := by
  induction vs with
  | nil => rfl
  | cons v vs ih =>
    by_cases hv : accepted.contains v <;>
      simp_all [validateArrayValue, getValidValues, List.filter_cons, hv]

/-- Lists with no rejected element are kept whole by the accepting filter. -/
lemma filter_contains_eq_self_of_no_invalid (accepted vs : List String)
    (h : vs.filter (fun v => !accepted.contains v) = []) :
    vs.filter (fun v => accepted.contains v) = vs := by
  induction vs with
  | nil => rfl
  | cons v vs ih =>
    by_cases hv : accepted.contains v <;> simp_all [List.filter_cons, hv]

/-- C2: with no pre-existing same-prefix label, an array-valued release
(resp. backport) field proposes no labels and one error message listing
exactly the invalid elements (comma-joined, quoted) with the full
allowlist when any element is invalid, and otherwise proposes one
`<category>-<value>` label per element, preserving order and duplicates. -/
theorem c2_array_all_or_nothing (accepted : List String) (yamlContent : String)
    (vsR vsB : List String) :
    (parseYamlValue yamlContent "release" = some (.arr vsR) →
      processReleaseLabel accepted yamlContent false =
        (if vsR.filter (fun v => !accepted.contains v) = [] then
          { labels := vsR.map (fun v => "release-" ++ v), error := none }
        else
          { labels := [],
            error := some ("❌ Invalid release values: " ++
              String.intercalate ", "
                ((vsR.filter (fun v => !accepted.contains v)).map quoteVal) ++
              ". Accepted values: " ++ String.intercalate ", " accepted) })) ∧
    (parseYamlValue yamlContent "backport" = some (.arr vsB) →
      processBackportLabel accepted yamlContent false =
        (if vsB.filter (fun v => !accepted.contains v) = [] then
          { labels := vsB.map (fun v => "backport-" ++ v), error := none }
        else
          { labels := [],
            error := some ("❌ Invalid backport values: " ++
              String.intercalate ", "
                ((vsB.filter (fun v => !accepted.contains v)).map quoteVal) ++
              ". Accepted values: " ++ String.intercalate ", " accepted) })) := by
  constructor
  · intro h
    simp only [processReleaseLabel, h, getInvalidValues_validateArrayValue,
      getValidValues_validateArrayValue]
    by_cases hinv : vsR.filter (fun v => !accepted.contains v) = []
    · rw [filter_contains_eq_self_of_no_invalid accepted vsR hinv]
      cases vsR <;> simp_all
    · have hpos : 0 < (vsR.filter (fun v => !accepted.contains v)).length := by
        cases hl : vsR.filter (fun v => !accepted.contains v) with
        | nil => exact absurd hl hinv
        | cons a as => simp
      rw [if_pos hpos, if_neg hinv]
      simp
  · intro h
    simp only [processBackportLabel, h, getInvalidValues_validateArrayValue,
      getValidValues_validateArrayValue]
    by_cases hinv : vsB.filter (fun v => !accepted.contains v) = []
    · rw [filter_contains_eq_self_of_no_invalid accepted vsB hinv]
      cases vsB <;> simp_all
    · have hpos : 0 < (vsB.filter (fun v => !accepted.contains v)).length := by
        cases hl : vsB.filter (fun v => !accepted.contains v) with
        | nil => exact absurd hl hinv
        | cons a as => simp
      rw [if_pos hpos, if_neg hinv]
      simp

/-- C2 witness: with accepted values 1.4/1.5/1.6, the array
`["1.5", "bogus", "1.6"]` yields no labels and the single error naming
exactly `"bogus"`, while `["1.4", "1.4"]` yields duplicated backport
labels in order. -/
theorem c2_witness :
    (parseYamlValue "release: [\"1.5\", \"bogus\", \"1.6\"]\nbackport: [\"1.4\", \"1.4\"]"
        "release" = some (.arr ["1.5", "bogus", "1.6"])) ∧
    processReleaseLabel ["1.4", "1.5", "1.6"]
      "release: [\"1.5\", \"bogus\", \"1.6\"]\nbackport: [\"1.4\", \"1.4\"]" false =
      { labels := [],
        error := some "❌ Invalid release values: \"bogus\". Accepted values: 1.4, 1.5, 1.6" } ∧
    processBackportLabel ["1.4", "1.5", "1.6"]
      "release: [\"1.5\", \"bogus\", \"1.6\"]\nbackport: [\"1.4\", \"1.4\"]" false =
      { labels := ["backport-1.4", "backport-1.4"], error := none } := by
  refine ⟨by decide, ?_, ?_⟩
  · have := (c2_array_all_or_nothing ["1.4", "1.5", "1.6"]
      "release: [\"1.5\", \"bogus\", \"1.6\"]\nbackport: [\"1.4\", \"1.4\"]"
      ["1.5", "bogus", "1.6"] ["1.4", "1.4"]).1 (by decide)
    rw [this]; decide
  · have := (c2_array_all_or_nothing ["1.4", "1.5", "1.6"]
      "release: [\"1.5\", \"bogus\", \"1.6\"]\nbackport: [\"1.4\", \"1.4\"]"
      ["1.5", "bogus", "1.6"] ["1.4", "1.4"]).2 (by decide)
    rw [this]; decide

/-! ## Claim C4 -/

/-- C4 counterexample: with accepted release 1.6 only and YAML
`release: 1.5`, the first run posts one error comment and a second run on
unchanged inputs posts a second identical comment instead of replacing
the first: the comment count goes from one to two. -/
theorem c4_counterexample_duplicate_error_comment :
    (processReleaseBackportLabeling true true ["1.6"] ["1.4"] []
      "release: 1.5\nbackport: 1.4" []).commentsAfter.length = 1 ∧
    (processReleaseBackportLabeling true true ["1.6"] ["1.4"] []
      "release: 1.5\nbackport: 1.4"
      (processReleaseBackportLabeling true true ["1.6"] ["1.4"] []
        "release: 1.5\nbackport: 1.4" []).commentsAfter).errorCommentPosted = true ∧
    (processReleaseBackportLabeling true true ["1.6"] ["1.4"] []
      "release: 1.5\nbackport: 1.4"
      (processReleaseBackportLabeling true true ["1.6"] ["1.4"] []
        "release: 1.5\nbackport: 1.4" []).commentsAfter).commentsAfter.length = 2 := by
  decide

/-- C4 (amended): two runs on unchanged label state, body and
configuration propose the same label set; when validation succeeds the
second run creates no comment; but when validation fails the second run
appends a second copy of the combined error comment to the comments left
by the first run instead of replacing it. -/
theorem c4_same_labels_and_comment_evolution (releaseLabeling backportLabeling : Bool)
    (acceptedReleases acceptedBackports currentLabels : List String)
    (yamlContent : String) (comments : List String) :
    (processReleaseBackportLabeling releaseLabeling backportLabeling
      acceptedReleases acceptedBackports currentLabels yamlContent
      (processReleaseBackportLabeling releaseLabeling backportLabeling
        acceptedReleases acceptedBackports currentLabels yamlContent comments).commentsAfter).appliedLabels =
      (processReleaseBackportLabeling releaseLabeling backportLabeling
        acceptedReleases acceptedBackports currentLabels yamlContent comments).appliedLabels ∧
    ((processReleaseBackportLabeling releaseLabeling backportLabeling
        acceptedReleases acceptedBackports currentLabels yamlContent comments).validationErrors = [] →
      (processReleaseBackportLabeling releaseLabeling backportLabeling
        acceptedReleases acceptedBackports currentLabels yamlContent
        (processReleaseBackportLabeling releaseLabeling backportLabeling
          acceptedReleases acceptedBackports currentLabels yamlContent comments).commentsAfter).errorCommentPosted = false) ∧
    ((processReleaseBackportLabeling releaseLabeling backportLabeling
        acceptedReleases acceptedBackports currentLabels yamlContent comments).validationErrors ≠ [] →
      (processReleaseBackportLabeling releaseLabeling backportLabeling
        acceptedReleases acceptedBackports currentLabels yamlContent
        (processReleaseBackportLabeling releaseLabeling backportLabeling
          acceptedReleases acceptedBackports currentLabels yamlContent comments).commentsAfter).commentsAfter =
        (processReleaseBackportLabeling releaseLabeling backportLabeling
          acceptedReleases acceptedBackports currentLabels yamlContent comments).commentsAfter ++
          [combinedErrorComment
            (processReleaseBackportLabeling releaseLabeling backportLabeling
              acceptedReleases acceptedBackports currentLabels yamlContent comments).validationErrors
            acceptedReleases acceptedBackports]) := by
  obtain ⟨hv, ha⟩ := processReleaseBackportLabeling_comment_indep releaseLabeling backportLabeling
    acceptedReleases acceptedBackports currentLabels yamlContent
    (processReleaseBackportLabeling releaseLabeling backportLabeling
      acceptedReleases acceptedBackports currentLabels yamlContent comments).commentsAfter comments
  refine ⟨ha, ?_, ?_⟩
  · intro h0
    rcases processReleaseBackportLabeling_spec releaseLabeling backportLabeling
        acceptedReleases acceptedBackports currentLabels yamlContent
        (processReleaseBackportLabeling releaseLabeling backportLabeling
          acceptedReleases acceptedBackports currentLabels yamlContent comments).commentsAfter with
      ⟨_, _, hpost, _⟩ | ⟨hne, _, _, _, _⟩
    · exact hpost
    · exact absurd (hv.trans h0) hne
  · intro hne0
    rcases processReleaseBackportLabeling_spec releaseLabeling backportLabeling
        acceptedReleases acceptedBackports currentLabels yamlContent
        (processReleaseBackportLabeling releaseLabeling backportLabeling
          acceptedReleases acceptedBackports currentLabels yamlContent comments).commentsAfter with
      ⟨hnil, _, _, _⟩ | ⟨_, _, _, _, hcomm⟩
    · exact absurd (hv.symm.trans hnil) hne0
    · rw [hcomm, hv]

/-- C4 witness: the amended theorem applied at the failing configuration
of the counterexample and at a succeeding configuration. -/
theorem c4_witness :
    ((processReleaseBackportLabeling true true ["1.6"] ["1.4"] []
        "release: 1.5\nbackport: 1.4" []).validationErrors ≠ [] ∧
      (processReleaseBackportLabeling true true ["1.6"] ["1.4"] []
        "release: 1.5\nbackport: 1.4"
        (processReleaseBackportLabeling true true ["1.6"] ["1.4"] []
          "release: 1.5\nbackport: 1.4" []).commentsAfter).commentsAfter =
        (processReleaseBackportLabeling true true ["1.6"] ["1.4"] []
          "release: 1.5\nbackport: 1.4" []).commentsAfter ++
          [combinedErrorComment
            (processReleaseBackportLabeling true true ["1.6"] ["1.4"] []
              "release: 1.5\nbackport: 1.4" []).validationErrors ["1.6"] ["1.4"]]) ∧
    ((processReleaseBackportLabeling true true ["1.5"] ["1.4"] []
        "release: 1.5\nbackport: 1.4" []).validationErrors = [] ∧
      (processReleaseBackportLabeling true true ["1.5"] ["1.4"] []
        "release: 1.5\nbackport: 1.4"
        (processReleaseBackportLabeling true true ["1.5"] ["1.4"] []
          "release: 1.5\nbackport: 1.4" []).commentsAfter).errorCommentPosted = false) :=
  ⟨⟨by decide,
      (c4_same_labels_and_comment_evolution true true ["1.6"] ["1.4"] []
        "release: 1.5\nbackport: 1.4" []).2.2 (by decide)⟩,
    ⟨by decide,
      (c4_same_labels_and_comment_evolution true true ["1.5"] ["1.4"] []
        "release: 1.5\nbackport: 1.4" []).2.1 (by decide)⟩⟩

/-! ## Claim C5 -/

/-- C5: for every non-draft PR, smart labeling ensures
`ready for review` when a `release `-prefixed label or a release YAML
field is present; otherwise it ensures `triage` unless a
`backport `-prefixed label or a backport YAML field is present, in which
case no label is changed.  Ensuring adds the label exactly when it is
missing. -/
theorem c5_smart_labeling_decision (body : String) (currentLabels : List String) :
    ((labelPatternMatches currentLabels "release *" || hasYamlField body "release") = true →
      handlePullRequestEvent false body currentLabels =
        (if labelPatternMatches currentLabels "ready for review" then []
          else ["ready for review"])) ∧
    ((labelPatternMatches currentLabels "release *" || hasYamlField body "release") = false →
      (labelPatternMatches currentLabels "backport *" || hasYamlField body "backport") = false →
      handlePullRequestEvent false body currentLabels =
        (if labelPatternMatches currentLabels "triage" then [] else ["triage"])) ∧
    ((labelPatternMatches currentLabels "release *" || hasYamlField body "release") = false →
      (labelPatternMatches currentLabels "backport *" || hasYamlField body "backport") = true →
      handlePullRequestEvent false body currentLabels = []) := by
  refine ⟨?_, ?_, ?_⟩
  · intro h1
    cases hrel : labelPatternMatches currentLabels "release *" <;>
      cases hry : hasYamlField body "release" <;>
        cases hrfr : labelPatternMatches currentLabels "ready for review" <;>
          simp_all [handlePullRequestEvent]
  · intro h1 h2
    simp only [Bool.or_eq_false_iff] at h1 h2
    obtain ⟨hrel, hry⟩ := h1
    obtain ⟨hback, hby⟩ := h2
    cases htr : labelPatternMatches currentLabels "triage" <;>
      simp_all [handlePullRequestEvent]
  · intro h1 h2
    simp only [Bool.or_eq_false_iff] at h1
    obtain ⟨hrel, hry⟩ := h1
    cases hback : labelPatternMatches currentLabels "backport *" <;>
      cases hby : hasYamlField body "backport" <;>
        simp_all [handlePullRequestEvent]

/-- C5 witness: a PR with the automation-set YAML release field and no
labels gets `ready for review`; a bare PR gets `triage`; a PR with a
`backport 1.4` label is left alone. -/
theorem c5_witness :
    ((labelPatternMatches [] "release *" ||
        hasYamlField "x\n```yaml\nrelease: 1.5\n```" "release") = true ∧
      handlePullRequestEvent false "x\n```yaml\nrelease: 1.5\n```" [] = ["ready for review"]) ∧
    (handlePullRequestEvent false "no yaml here" [] = ["triage"]) ∧
    (handlePullRequestEvent false "no yaml here" ["backport 1.4"] = []) := by
  refine ⟨⟨by decide, ?_⟩, ?_, ?_⟩
  · have := (c5_smart_labeling_decision "x\n```yaml\nrelease: 1.5\n```" []).1 (by decide)
    rw [this]; decide
  · have := (c5_smart_labeling_decision "no yaml here" []).2.1 (by decide) (by decide)
    rw [this]; decide
  · exact (c5_smart_labeling_decision "no yaml here" ["backport 1.4"]).2.2
      (by decide) (by decide)

/-! ## Claim C6 -/

/-- C6: with no pre-existing feature-branch label, the
`needs_feature_branch` value is compared case-insensitively after trim
and quote stripping: double-quoted `TRUE`, single-quoted `false`,
unquoted `True` and unquoted `false` all parse as booleans (true adds the
label, false adds none), while `maybe` yields a validation error whose
message names the accepted values `true, false`. -/
theorem c6_feature_branch_boolean_parsing :
    processFeatureBranchLabeling false "needs_feature_branch: \"TRUE\"" =
      .addedLabel ∧
    processFeatureBranchLabeling false ("needs_feature_branch: " ++
      String.mk ['\''] ++ "false" ++ String.mk ['\'']) = .noLabelNeeded ∧
    processFeatureBranchLabeling false "needs_feature_branch: True" = .addedLabel ∧
    processFeatureBranchLabeling false "needs_feature_branch: false" = .noLabelNeeded ∧
    processFeatureBranchLabeling false "needs_feature_branch: maybe" =
      .invalidValue ("❌ Invalid needs_feature_branch value: \"maybe\"" ++
        ". Accepted values: true, false (case-insensitive, with optional quotes)") ∧
    jsIncludes ("❌ Invalid needs_feature_branch value: \"maybe\"" ++
      ". Accepted values: true, false (case-insensitive, with optional quotes)")
      "true, false" = true := by
  decide

/-! ## Claim C7 -/

/-- C7: for an open, non-draft PR without the stale label, the stale rule
adds the label exactly when now minus last activity strictly exceeds
`staleDays * 86400000` ms: equality at the threshold does not mark the PR
stale and one millisecond more does. -/
theorem c7_stale_threshold_strict (staleDays : Nat) (labelNames : List String)
    (now lastActivity : Int) (h : labelNames.contains "stale" = false) :
    (processPR staleDays false labelNames now lastActivity =
      decide (now - lastActivity > (staleDays * 86400000 : Int))) ∧
    processPR staleDays false labelNames now (now - staleDays * 86400000) = false ∧
    processPR staleDays false labelNames now (now - staleDays * 86400000 - 1) = true := by
  have hth : (staleThresholdMs staleDays : Int) = (staleDays * 86400000 : Int) := by
    simp [staleThresholdMs]
    ring
  refine ⟨?_, ?_, ?_⟩
  · simp [processPR, h, hth]
    intro _
    simpa using h
  · simp [processPR, h, hth]
  · simp only [processPR, h, Bool.false_eq_true, if_false, hth]
    simp only [decide_eq_true_eq]
    omega

/-- C7 witness: with a one-day threshold and no labels, a PR last active
exactly 86400000 ms ago is not stale and one active 86400001 ms ago is. -/
theorem c7_witness :
    ([] : List String).contains "stale" = false ∧
    processPR 1 false [] 86400000 0 = false ∧
    processPR 1 false [] 86400001 0 = true := by
  have h := c7_stale_threshold_strict 1 [] 86400001 0 (by decide)
  refine ⟨by decide, ?_, ?_⟩
  · have h2 := (c7_stale_threshold_strict 1 [] 86400000 0 (by decide)).2.1
    simpa using h2
  · have h3 := h.2.2
    simpa using h3

/-! ## Claim C8 -/

/-- C8 counterexample: for the unparseable array value `[1.5, bogus]`
the parser returns the same result — null — as for input lacking the
`release` field entirely, so malformed array syntax is not distinct from
absence. -/
theorem c8_counterexample_malformed_equals_absent :
    parseYamlValue "release: [1.5, bogus]" "release" = none ∧
    parseYamlValue "backport: 1.4" "release" = none ∧
    parseYamlValue "release: [1.5, bogus]" "release" =
      parseYamlValue "backport: 1.4" "release" := by
  decide

/-- C8 (amended): a named field whose value has array syntax but fails to
parse yields null, the very result returned when the field is absent —
callers cannot distinguish the two. -/
theorem c8_malformed_array_indistinguishable_from_absent
    (yamlContent field raw : String)
    (hraw : parseRawField yamlContent field = some raw)
    (hs : jsStartsWith raw "[" = true) (he : jsEndsWith raw "]" = true)
    (hfail : parseYamlArrayValue raw = none) :
    parseYamlValue yamlContent field = none := by
  simp only [parseYamlValue, hraw, hs, he, Bool.and_self, if_true, hfail]

/-- C8 witness: the amended theorem applied to the counterexample input. -/
theorem c8_witness :
    parseRawField "release: [1.5, bogus]" "release" = some "[1.5, bogus]" ∧
    parseYamlValue "release: [1.5, bogus]" "release" = none :=
  ⟨by decide,
    c8_malformed_array_indistinguishable_from_absent
      "release: [1.5, bogus]" "release" "[1.5, bogus]"
      (by decide) (by decide) (by decide) (by decide)⟩

/-! ## Claim C9 -/

/-- C9 counterexample: the value opening with a double quote and closing
with a single quote still has both quotes stripped — the source's
`replace(/^["']|["']$/g, '')` does not require the quotes to match — so
`"1.5'` parses as the scalar `1.5` rather than staying unstripped. -/
theorem c9_counterexample_mismatched_quotes_stripped :
    parseYamlValue "release: \"1.5'" "release" = some (.str "1.5") ∧
    parseYamlValue "release: \"1.5'" "release" ≠ some (.str "\"1.5'") := by
  decide

/-- C9 (amended): for a non-array scalar value the parser removes one
leading quote character and one trailing quote character independently
(they need not match), returning the remainder as a scalar, with an empty
remainder reported as absent. -/
theorem c9_quote_stripping_independent (yamlContent field raw : String)
    (hraw : parseRawField yamlContent field = some raw)
    (harr : (jsStartsWith raw "[" && jsEndsWith raw "]") = false) :
    parseYamlValue yamlContent field =
      (if String.mk (stripQuotesL raw.data) = "" then none
        else some (.str (String.mk (stripQuotesL raw.data)))) ∧
    (∀ (c d : Char) (s : List Char), isQuoteChar c = true → isQuoteChar d = true →
      stripQuotesL (c :: (s ++ [d])) = s) := by
  constructor
  · simp only [parseYamlValue, hraw, harr, Bool.false_eq_true, if_false]
  · intro c d s hc hd
    simp [stripQuotesL, hc, dropTrailingQuote, List.getLast?_concat, hd,
      List.dropLast_concat]

/-- C9 witness: the amended theorem applied to the mismatched-quote
value, whose stripped form is the scalar `1.5`. -/
theorem c9_witness :
    parseRawField "release: \"1.5'" "release" = some "\"1.5'" ∧
    parseYamlValue "release: \"1.5'" "release" = some (.str "1.5") ∧
    stripQuotesL ('"' :: ("1.5".data ++ ['\''])) = "1.5".data := by
  have h := c9_quote_stripping_independent "release: \"1.5'" "release" "\"1.5'"
    (by decide) (by decide)
  refine ⟨by decide, ?_, h.2 '"' '\'' "1.5".data (by decide) (by decide)⟩
  rw [h.1]
  decide

/-! ## Claim C10 -/

/-- Appending never disturbs a prefix. -/
lemma jsStartsWith_append (pre v : String) : jsStartsWith (pre ++ v) pre = true := by
  simp [jsStartsWith, List.isPrefixOf_iff_prefix]

/-- The star pattern used by smart labeling prefix-matches on
`release ` (with a trailing space). -/
lemma labelPatternMatches_release_star (labels : List String) :
    labelPatternMatches labels "release *" =
      labels.any (fun l => jsStartsWith l "release ") := by
  have h1 : jsEndsWith "release *" "*" = true := by decide
  have h2 : String.mk "release *".data.dropLast = "release " := by decide
  simp only [labelPatternMatches, h1, if_true, h2]

/-- A label of the hyphenated form is never matched by the
space-suffixed pattern: both candidate prefixes have length eight but
differ. -/
lemma not_space_of_hyphen (l : String) (h : jsStartsWith l "release-" = true) :
    jsStartsWith l "release " = false := by
  simp only [jsStartsWith] at h ⊢
  rw [List.isPrefixOf_iff_prefix] at h
  cases hsp : "release ".data.isPrefixOf l.data with
  | false => rfl
  | true =>
    rw [List.isPrefixOf_iff_prefix] at hsp
    obtain ⟨t1, ht1⟩ := h
    obtain ⟨t2, ht2⟩ := hsp
    have heq := List.append_inj_left (ht1.trans ht2.symm) (by decide)
    exact absurd heq (by decide)

/-- C10: release labels proposed by the array-capable rule all have the
hyphenated `release-<value>` form, smart labeling detects release labels
by prefix `release ` (trailing space) via the `release *` pattern, and
hence a PR whose release-related labels were all added by this automation
fails the smart-labeling release check. -/
theorem c10_hyphen_space_label_mismatch :
    (∀ (accepted : List String) (yamlContent : String) (hasExistingLabel : Bool) (l : String),
      l ∈ (processReleaseLabel accepted yamlContent hasExistingLabel).labels →
      jsStartsWith l "release-" = true) ∧
    (∀ labels : List String,
      labelPatternMatches labels "release *" =
        labels.any (fun l => jsStartsWith l "release ")) ∧
    (∀ labels : List String,
      (∀ l ∈ labels, jsStartsWith l "release-" = true) →
      labelPatternMatches labels "release *" = false) := by
  refine ⟨?_, labelPatternMatches_release_star, ?_⟩
  · intro accepted yamlContent hasExistingLabel l hl
    simp only [processReleaseLabel] at hl
    split at hl
    · simp at hl
    · split at hl
      · simp at hl
      · split at hl
        · split at hl
          · simp at hl
          · split at hl
            · simp only [List.mem_map] at hl
              obtain ⟨v, _, hv⟩ := hl
              rw [← hv]
              exact jsStartsWith_append "release-" v
            · simp at hl
        · split at hl
          · simp only [List.mem_singleton] at hl
            subst hl
            exact jsStartsWith_append "release-" _
          · simp at hl
  · intro labels hall
    rw [labelPatternMatches_release_star]
    simp only [List.any_eq_false]
    intro l hl
    simp only [Bool.not_eq_true]
    exact not_space_of_hyphen l (hall l hl)

/-- C10 witness: the label the rule proposes for accepted value 1.5 is
hyphenated, and a PR carrying only such automation-added labels fails the
`release *` check. -/
theorem c10_witness :
    jsStartsWith "release-1.5" "release-" = true ∧
    labelPatternMatches ["release-1.5", "release-1.6"] "release *" = false :=
  ⟨c10_hyphen_space_label_mismatch.1 ["1.5"] "release: 1.5" false "release-1.5" (by decide),
    c10_hyphen_space_label_mismatch.2.2 ["release-1.5", "release-1.6"] (by decide)⟩

end RepoAutomation
